import Mathlib

/-!
Verification of the meeting-assistant reranker service
(`backend/reranker/server.py`).

The service receives a query and a list of documents, builds one
`(query, text)` pair per document in input order, makes a single batch
call to an external cross-encoder scoring model, zips the returned
scores back onto document ids positionally, sorts the results by
descending score with Python's stable `list.sort(reverse=True)`, and
returns them.

Embedding choices:
* Scores are modelled as rationals (`Rat`); the service only compares
  and copies them.
* The external scoring model `model.predict` is a parameter
  `predict : List (String × String) → Except String (List Rat)`;
  an exception raised by the model is an `Except.error` value carrying
  the underlying cause, and the service body (which has no
  `try`/`except`) propagates it unchanged.
* Python's `list.sort(key=..., reverse=True)` is the stable descending
  sort: descending by key, equal-key elements kept in their original
  relative order.  It is embedded as the structurally recursive stable
  insertion sort `sortResults`; the theorems `sortResults_sorted`,
  `sortResults_perm` and `sortResults_filter` establish exactly the
  contract of Python's stable sort (descending order, permutation, and
  preservation of the relative order within every equal-score class),
  which determines the output uniquely.
* `metadata` is an opaque JSON-like mapping; the core never reads it.
-/

namespace MeetingAssistant

/-- JSON-like values populating the opaque `metadata` mapping of a
document.  The core never inspects them. -/
inductive MetaVal where
  | null : MetaVal
  | bool : Bool → MetaVal
  | num : Rat → MetaVal
  | str : String → MetaVal
  deriving DecidableEq

/-- `Document` from `server.py`: required `id` and `text`, optional
`metadata` and (upstream) `score`. -/
structure Document where
  id : String
  text : String
  metadata : Option (List (String × MetaVal)) := none
  score : Option Rat := none
  deriving DecidableEq

/-- `RerankRequest` from `server.py`. -/
structure RerankRequest where
  query : String
  documents : List Document
  deriving DecidableEq

/-- `RerankResult` from `server.py`: an id together with the computed
relevance score. -/
structure RerankResult where
  id : String
  score : Rat
  deriving DecidableEq

/-- `RerankResponse` from `server.py`. -/
structure RerankResponse where
  results : List RerankResult
  deriving DecidableEq

/-- Line 31 of `server.py`:
`pairs = [(payload.query, doc.text) for doc in payload.documents]`. -/
def buildPairs (payload : RerankRequest) : List (String × String) :=
  payload.documents.map (fun doc => (payload.query, doc.text))

/-- Lines 33-36 of `server.py`: the list comprehension
`[{"id": doc.id, "score": float(score)} for doc, score in zip(payload.documents, scores)]`.
Python's `zip` stops at the shorter of the two sequences. -/
def pairResults (docs : List Document) (scores : List Rat) : List RerankResult :=
  (docs.zip scores).map (fun p => { id := p.1.id, score := p.2 })

/-- One step of the stable descending sort: insert `x` into the
already-sorted list `l`, after every element with a strictly larger
score and before every element with an equal or smaller score.  Since
`sortResults` inserts earlier-input elements into the sorted suffix,
an element is placed before all its equal-score successors, which is
exactly the tie-breaking behaviour of Python's stable sort. -/
def insertDesc (x : RerankResult) : List RerankResult → List RerankResult
  | [] => [x]
  | y :: ys => if x.score < y.score then y :: insertDesc x ys else x :: y :: ys

/-- Line 37 of `server.py`:
`results.sort(key=lambda item: item["score"], reverse=True)` — the
stable sort by descending score. -/
def sortResults : List RerankResult → List RerankResult
  | [] => []
  | x :: xs => insertDesc x (sortResults xs)

/-- Sorted by descending score. -/
def SortedDesc (l : List RerankResult) : Prop :=
  l.Pairwise (fun a b => b.score ≤ a.score)

/-- The `rerank` endpoint body (lines 30-38 of `server.py`).  The
scoring model is passed in as `predict`; a raised exception is an
`Except.error` and, having no handler in `rerank`, propagates. -/
def rerank (predict : List (String × String) → Except String (List Rat))
    (payload : RerankRequest) : Except String RerankResponse :=
  match predict (buildPairs payload) with
  | Except.error e => Except.error e
  | Except.ok scores =>
      Except.ok { results := sortResults (pairResults payload.documents scores) }

/-- `rerank` instrumented with the list of argument lists passed to
`predict`.  The source calls `model.predict` exactly once,
unconditionally, with `pairs`; the trace records that single call. -/
def rerankTrace (predict : List (String × String) → Except String (List Rat))
    (payload : RerankRequest) :
    Except String RerankResponse × List (List (String × String)) :=
  (rerank predict payload, [buildPairs payload])

/-- The type of the external batch-scoring capability
(`model.predict` in `server.py`). -/
abbrev Predict := List (String × String) → Except String (List Rat)

/-- A concrete document used in counterexamples and witnesses. -/
def docA : Document := { id := "a", text := "weather forecast for tomorrow" }

/-- A second concrete document. -/
def docB : Document := { id := "b", text := "Q3 budget review meeting notes" }

/-- A concrete two-document request. -/
def reqAB : RerankRequest := { query := "budget meeting", documents := [docA, docB] }

/-- The same request with arbitrary `metadata` and upstream `score`
junk attached to the documents; ids and texts are unchanged. -/
def reqABJunk : RerankRequest :=
  { query := "budget meeting",
    documents :=
      [{ id := "a", text := "weather forecast for tomorrow",
         metadata := some [("source", MetaVal.str ("crawler")), ("rank", MetaVal.num 3)],
         score := some 9 },
       { id := "b", text := "Q3 budget review meeting notes",
         metadata := some [("flag", MetaVal.bool true)],
         score := some (-2) }] }

/-- A concrete request with no documents. -/
def emptyReq : RerankRequest := { query := "q", documents := [] }

/-! ### Properties of the stable descending sort -/

/-- Inserting permutes: `insertDesc x l` is `x :: l` up to order. -/
theorem insertDesc_perm (x : RerankResult) (l : List RerankResult) :
    List.Perm (insertDesc x l) (x :: l) := by
  induction l with
  | nil => exact List.Perm.refl _
  | cons y ys ih =>
    by_cases h : x.score < y.score
    · simp only [insertDesc, if_pos h]
      exact (ih.cons y).trans (List.Perm.swap x y ys)
    · simp only [insertDesc, if_neg h]
      exact List.Perm.refl _

/-- Sorting permutes: the output is a rearrangement of the input. -/
theorem sortResults_perm (l : List RerankResult) :
    List.Perm (sortResults l) l := by
  induction l with
  | nil => exact List.Perm.refl _
  | cons x xs ih => exact (insertDesc_perm x (sortResults xs)).trans (ih.cons x)

/-- Inserting into a descending-sorted list keeps it sorted. -/
theorem insertDesc_sorted (x : RerankResult) (l : List RerankResult)
    (h : SortedDesc l) : SortedDesc (insertDesc x l) := by
  induction l with
  | nil => simp [insertDesc, SortedDesc]
  | cons y ys ih =>
    rw [SortedDesc, List.pairwise_cons] at h
    by_cases hx : x.score < y.score
    · rw [insertDesc, if_pos hx, SortedDesc, List.pairwise_cons]
      constructor
      · intro b hb
        rcases List.mem_cons.mp ((insertDesc_perm x ys).mem_iff.mp hb) with hb | hb
        · rw [hb]
          exact le_of_lt hx
        · exact h.1 b hb
      · exact ih h.2
    · rw [insertDesc, if_neg hx, SortedDesc, List.pairwise_cons]
      constructor
      · intro b hb
        rcases List.mem_cons.mp hb with hb | hb
        · rw [hb]
          exact not_lt.mp hx
        · exact le_trans (h.1 b hb) (not_lt.mp hx)
      · exact List.Pairwise.cons h.1 h.2

/-- The output of the sort is sorted by descending score. -/
theorem sortResults_sorted (l : List RerankResult) :
    SortedDesc (sortResults l) := by
  induction l with
  | nil => simp [sortResults, SortedDesc]
  | cons x xs ih => exact insertDesc_sorted x (sortResults xs) ih

/-- Stability of one insertion step, phrased on score classes: within
the class of any fixed score `s`, `insertDesc x l` is `x` (when `x`
has score `s`) followed by the class of `l` in unchanged order. -/
theorem insertDesc_filter (x : RerankResult) (l : List RerankResult) (s : Rat) :
    (insertDesc x l).filter (fun r => decide (r.score = s))
      = (if x.score = s then [x] else [])
        ++ l.filter (fun r => decide (r.score = s)) := by
  induction l with
  | nil =>
    by_cases hx : x.score = s <;> simp [insertDesc, hx]
  | cons y ys ih =>
    by_cases hlt : x.score < y.score
    · rw [insertDesc, if_pos hlt]
      by_cases hy : y.score = s
      · have hx : ¬ x.score = s := fun hxs => absurd (hxs.trans hy.symm ▸ hlt) (lt_irrefl _)
        simp [List.filter_cons, hy, hx, ih]
      · simp [List.filter_cons, hy, ih]
    · rw [insertDesc, if_neg hlt]
      by_cases hx : x.score = s <;> simp [List.filter_cons, hx]

/-- Stability of the sort: within every equal-score class the output
keeps exactly the input's elements in the input's relative order. -/
theorem sortResults_filter (l : List RerankResult) (s : Rat) :
    (sortResults l).filter (fun r => decide (r.score = s))
      = l.filter (fun r => decide (r.score = s)) := by
  induction l with
  | nil => rfl
  | cons x xs ih =>
    rw [sortResults, insertDesc_filter, ih]
    by_cases hx : x.score = s <;> simp [List.filter_cons, hx]

/-! ### Inversion and pairing lemmas for `rerank` -/

/-- Inversion: a successful `rerank` means the scoring call succeeded
and the results are the stable descending sort of the positional
pairing. -/
theorem rerank_ok_inv (f : Predict) (p : RerankRequest) (resp : RerankResponse)
    (h : rerank f p = Except.ok resp) :
    ∃ scores, f (buildPairs p) = Except.ok scores ∧
      resp.results = sortResults (pairResults p.documents scores) := by
  unfold rerank at h
  cases hf : f (buildPairs p) with
  | error e =>
    rw [hf] at h
    exact absurd h (by simp)
  | ok scores =>
    rw [hf] at h
    refine ⟨scores, rfl, ?_⟩
    injection h with h
    rw [← h]

/-- When the score list is as long as the document list, the positional
pairing keeps exactly the document ids, in input order. -/
theorem pairResults_map_id (docs : List Document) (scores : List Rat)
    (hlen : scores.length = docs.length) :
    (pairResults docs scores).map (fun r => r.id) = docs.map (fun d => d.id) := by
  induction docs generalizing scores with
  | nil => rfl
  | cons d ds ih =>
    cases scores with
    | nil => simp at hlen
    | cons sc ss =>
      have hstep : pairResults (d :: ds) (sc :: ss)
          = { id := d.id, score := sc } :: pairResults ds ss := rfl
      rw [hstep, List.map_cons, List.map_cons, ih ss (by simpa using hlen)]

/-- The positional pairing, element by element: the `i`-th pre-sort
result carries the `i`-th document's id and the `i`-th score. -/
theorem pairResults_get (docs : List Document) (scores : List Rat) (i : Nat)
    (hd : i < docs.length) (hsc : i < scores.length) :
    (pairResults docs scores)[i]? = some { id := docs[i].id, score := scores[i] } := by
  induction docs generalizing scores i with
  | nil => exact absurd hd (by simp)
  | cons d ds ih =>
    cases scores with
    | nil => exact absurd hsc (by simp)
    | cons sc ss =>
      cases i with
      | zero =>
        have hstep : pairResults (d :: ds) (sc :: ss)
            = { id := d.id, score := sc } :: pairResults ds ss := rfl
        rw [hstep]
        simp
      | succ n =>
        have hstep : pairResults (d :: ds) (sc :: ss)
            = { id := d.id, score := sc } :: pairResults ds ss := rfl
        rw [hstep]
        simp only [List.getElem?_cons_succ, List.getElem_cons_succ]
        exact ih ss n (Nat.lt_of_succ_lt_succ hd) (Nat.lt_of_succ_lt_succ hsc)

/-- The positional pairing reads nothing of a document but its id. -/
theorem pairResults_congr (d₁ d₂ : List Document) (s : List Rat)
    (h : d₁.map (fun d => d.id) = d₂.map (fun d => d.id)) :
    pairResults d₁ s = pairResults d₂ s := by
  induction d₁ generalizing d₂ s with
  | nil =>
    cases d₂ with
    | nil => rfl
    | cons b u => simp at h
  | cons a t ih =>
    cases d₂ with
    | nil => simp at h
    | cons b u =>
      rw [List.map_cons, List.map_cons] at h
      injection h with h₁ h₂
      cases s with
      | nil => rfl
      | cons sc ss =>
        have hstep₁ : pairResults (a :: t) (sc :: ss)
            = { id := a.id, score := sc } :: pairResults t ss := rfl
        have hstep₂ : pairResults (b :: u) (sc :: ss)
            = { id := b.id, score := sc } :: pairResults u ss := rfl
        rw [hstep₁, hstep₂, h₁, ih u ss h₂]

/-! ### The claims -/

/-- Claim C1, counterexample: a scoring function returning 1 score for
the 2 texts of `reqAB` does not make `rerank` fail with any error;
`rerank` succeeds and silently returns a truncated single-result list
(the `zip` on line 36 of `server.py` stops at the shorter sequence; the
code has no score-count check and no InternalConsistencyError). -/
theorem rerank_mismatch_cex :
    [(5 : Rat)].length ≠ (buildPairs reqAB).length ∧
    rerank (fun _ => Except.ok [(5 : Rat)]) reqAB
      = Except.ok { results := [{ id := "a", score := 5 }] } :=
  ⟨by decide, by rfl⟩

/-- Claim C1, amended: `rerank` performs no score-count check.  For
every request and every successful scoring outcome — matching count or
not — it succeeds, pairing positionally and silently truncating to the
shorter of the two sequences, so the result count is the minimum of
the document count and the score count. -/
theorem rerank_no_length_check (f : Predict) (p : RerankRequest) (scores : List Rat)
    (hs : f (buildPairs p) = Except.ok scores) :
    ∃ resp, rerank f p = Except.ok resp ∧
      resp.results.length = min p.documents.length scores.length := by
  refine ⟨{ results := sortResults (pairResults p.documents scores) }, ?_, ?_⟩
  · unfold rerank
    rw [hs]
  · show (sortResults (pairResults p.documents scores)).length
      = min p.documents.length scores.length
    rw [(sortResults_perm _).length_eq]
    simp [pairResults]

/-- Witness for `rerank_no_length_check` at a concrete mismatching
input: 2 documents, 1 score. -/
theorem rerank_no_length_check_witness :
    ∃ resp, rerank (fun _ => Except.ok [(5 : Rat)]) reqAB = Except.ok resp ∧
      resp.results.length = min reqAB.documents.length [(5 : Rat)].length :=
  rerank_no_length_check (fun _ => Except.ok [(5 : Rat)]) reqAB [(5 : Rat)] rfl

/-- Claim C2, counterexample: on the empty-documents request the
scoring capability IS invoked (line 32 of `server.py` calls
`model.predict(pairs)` unconditionally, here with the empty pair
list); a scoring function that fails on an empty batch therefore makes
`rerank` fail instead of returning an empty result list. -/
theorem rerank_empty_invokes_cex :
    rerank
      (fun pairs =>
        if pairs.isEmpty then Except.error ("scoring invoked") else Except.ok [])
      emptyReq = Except.error ("scoring invoked") := rfl

/-- Claim C2, amended: for the empty-documents request `rerank` calls
the scoring function exactly once, with the empty pair list (the trace
is `[[]]`); whenever that call succeeds — whatever scores it returns —
the response is the empty result list. -/
theorem rerank_empty_documents (f : Predict) (q : String) (scores : List Rat)
    (hs : f [] = Except.ok scores) :
    rerank f { query := q, documents := [] } = Except.ok { results := [] } ∧
    (rerankTrace f { query := q, documents := [] }).2 = [[]] := by
  refine ⟨?_, rfl⟩
  unfold rerank
  rw [show buildPairs { query := q, documents := [] } = [] from rfl, hs]
  rfl

/-- Witness for `rerank_empty_documents` at a concrete scoring
function succeeding on the empty batch. -/
theorem rerank_empty_documents_witness :
    rerank (fun _ => Except.ok ([] : List Rat)) { query := "q", documents := [] }
      = Except.ok { results := [] } ∧
    (rerankTrace (fun _ => Except.ok ([] : List Rat))
      { query := "q", documents := [] }).2 = [[]] :=
  rerank_empty_documents (fun _ => Except.ok ([] : List Rat)) ("q") [] rfl

/-- Claim C7: if the batch scoring call fails, `rerank` fails with the
very same error value (the underlying cause), returning no results;
the body of `rerank` has no handler, retry, or fallback, so the
scoring failure propagates unchanged. -/
theorem rerank_scoring_error_propagates (f : Predict) (p : RerankRequest) (e : String)
    (hs : f (buildPairs p) = Except.error e) :
    rerank f p = Except.error e := by
  unfold rerank
  rw [hs]

/-- Witness for `rerank_scoring_error_propagates` at a concrete
failing scoring function. -/
theorem rerank_scoring_error_propagates_witness :
    rerank (fun _ => Except.error ("resource exhausted")) reqAB
      = Except.error ("resource exhausted") :=
  rerank_scoring_error_propagates (fun _ => Except.error ("resource exhausted"))
    reqAB ("resource exhausted") rfl

/-- Claim C3: whenever `rerank` succeeds, the returned results are
sorted in descending score order — every adjacent pair satisfies
`results[i].score ≥ results[i+1].score`. -/
theorem rerank_sorted_desc (f : Predict) (p : RerankRequest) (resp : RerankResponse)
    (h : rerank f p = Except.ok resp) :
    List.Chain' (fun a b => b.score ≤ a.score) resp.results := by
  obtain ⟨scores, hs, hres⟩ := rerank_ok_inv f p resp h
  rw [hres]
  exact (sortResults_sorted _).chain'

/-- Witness for `rerank_sorted_desc` at a concrete request whose
second document scores higher. -/
theorem rerank_sorted_desc_witness :
    List.Chain' (fun a b => b.score ≤ a.score)
      (RerankResponse.mk
        [{ id := "b", score := 3 }, { id := "a", score := 1 }]).results :=
  rerank_sorted_desc (fun _ => Except.ok [(1 : Rat), 3]) reqAB
    (RerankResponse.mk [{ id := "b", score := 3 }, { id := "a", score := 1 }]) rfl

/-- Claim C4: the descending sort is stable.  Within every class of
equal scores, the successful response lists exactly the pre-sort
entries — which are in input-document order, result `i` coming from
document `i` — in that unchanged relative order. -/
theorem rerank_stable_ties (f : Predict) (p : RerankRequest)
    (scores : List Rat) (resp : RerankResponse)
    (hs : f (buildPairs p) = Except.ok scores)
    (h : rerank f p = Except.ok resp) :
    ∀ s : Rat, resp.results.filter (fun r => decide (r.score = s))
      = (pairResults p.documents scores).filter (fun r => decide (r.score = s)) := by
  obtain ⟨scores₂, hs₂, hres⟩ := rerank_ok_inv f p resp h
  rw [hs] at hs₂
  injection hs₂ with he
  subst he
  intro s
  rw [hres, sortResults_filter]

/-- Witness for `rerank_stable_ties`: both documents score 2; the
response keeps them in input order `a`, `b`. -/
theorem rerank_stable_ties_witness :
    (RerankResponse.mk
        [{ id := "a", score := 2 }, { id := "b", score := 2 }]).results.filter
        (fun r => decide (r.score = 2))
      = (pairResults reqAB.documents [(2 : Rat), 2]).filter
        (fun r => decide (r.score = 2)) :=
  rerank_stable_ties (fun _ => Except.ok [(2 : Rat), 2]) reqAB [(2 : Rat), 2]
    (RerankResponse.mk [{ id := "a", score := 2 }, { id := "b", score := 2 }])
    rfl rfl 2

/-- Claim C5: when the scoring function returns one score per text,
a successful `rerank` returns exactly one result per input document. -/
theorem rerank_length_eq (f : Predict) (p : RerankRequest)
    (scores : List Rat) (resp : RerankResponse)
    (hs : f (buildPairs p) = Except.ok scores)
    (hlen : scores.length = p.documents.length)
    (h : rerank f p = Except.ok resp) :
    resp.results.length = p.documents.length := by
  obtain ⟨scores₂, hs₂, hres⟩ := rerank_ok_inv f p resp h
  rw [hs] at hs₂
  injection hs₂ with he
  subst he
  rw [hres, (sortResults_perm _).length_eq]
  simp [pairResults, hlen]

/-- Witness for `rerank_length_eq` with a matching score count. -/
theorem rerank_length_eq_witness :
    (RerankResponse.mk
      [{ id := "b", score := 3 }, { id := "a", score := 1 }]).results.length
      = reqAB.documents.length :=
  rerank_length_eq (fun _ => Except.ok [(1 : Rat), 3]) reqAB [(1 : Rat), 3]
    (RerankResponse.mk [{ id := "b", score := 3 }, { id := "a", score := 1 }])
    rfl rfl rfl

/-- Claim C6, counterexample: uniqueness of input ids and success of
`rerank` do not suffice for id-set preservation.  On `reqAB` (ids
`"a"`, `"b"`, unique) a scoring function returning a single score lets
`rerank` succeed, yet the truncating `zip` on line 36 of `server.py`
drops document `"b"`: `"b"` is an input id but not a response id. -/
theorem rerank_id_set_cex :
    (reqAB.documents.map (fun d => d.id)).Nodup ∧
    rerank (fun _ => Except.ok [(5 : Rat)]) reqAB
      = Except.ok { results := [{ id := "a", score := 5 }] } ∧
    ("b" : String) ∈ reqAB.documents.map (fun d => d.id) ∧
    ("b" : String) ∉ (RerankResponse.mk
        [{ id := "a", score := 5 }]).results.map (fun r => r.id) :=
  ⟨by decide, by rfl, by decide, by decide⟩

/-- Claim C6, amended: with unique input ids, whenever `rerank`
succeeds with the scoring function returning one score per input text,
the ids of the response are exactly the ids of the input documents. -/
theorem rerank_id_set (f : Predict) (p : RerankRequest)
    (scores : List Rat) (resp : RerankResponse)
    (hs : f (buildPairs p) = Except.ok scores)
    (hlen : scores.length = p.documents.length)
    (_huniq : (p.documents.map (fun d => d.id)).Nodup)
    (h : rerank f p = Except.ok resp) (i : String) :
    i ∈ resp.results.map (fun r => r.id) ↔ i ∈ p.documents.map (fun d => d.id) := by
  obtain ⟨scores₂, hs₂, hres⟩ := rerank_ok_inv f p resp h
  rw [hs] at hs₂
  injection hs₂ with he
  subst he
  rw [hres, ← pairResults_map_id p.documents scores hlen]
  exact ((sortResults_perm (pairResults p.documents scores)).map (fun r => r.id)).mem_iff

/-- Witness for `rerank_id_set` at the id `"a"` of the concrete
request. -/
theorem rerank_id_set_witness :
    ("a" : String) ∈ (RerankResponse.mk
        [{ id := "b", score := 3 }, { id := "a", score := 1 }]).results.map
        (fun r => r.id)
      ↔ ("a" : String) ∈ reqAB.documents.map (fun d => d.id) :=
  rerank_id_set (fun _ => Except.ok [(1 : Rat), 3]) reqAB [(1 : Rat), 3]
    (RerankResponse.mk [{ id := "b", score := 3 }, { id := "a", score := 1 }])
    rfl rfl (by decide) rfl ("a")

/-- Claim C8: `rerank` invokes the scoring function exactly once — the
call trace is the one-element list holding the pairs of the unmodified
query with each document text in input order — and the score at
position `i` is paired with the id of document `i` positionally. -/
theorem rerank_single_call (f : Predict) (p : RerankRequest) :
    (rerankTrace f p).2 = [p.documents.map (fun d => (p.query, d.text))] ∧
    ∀ (scores : List Rat) (i : Nat) (hd : i < p.documents.length) (hsc : i < scores.length),
      (pairResults p.documents scores)[i]?
        = some { id := p.documents[i].id, score := scores[i] } :=
  ⟨rfl, fun scores i hd hsc => pairResults_get p.documents scores i hd hsc⟩

/-- Witness for `rerank_single_call` at the concrete request and a
concrete score list, position 0. -/
theorem rerank_single_call_witness :
    (rerankTrace (fun _ => Except.ok []) reqAB).2
      = [reqAB.documents.map (fun d => (reqAB.query, d.text))] ∧
    (pairResults reqAB.documents [(5 : Rat), 7])[0]?
      = some { id := "a", score := 5 } :=
  ⟨(rerank_single_call (fun _ => Except.ok []) reqAB).1,
   (rerank_single_call (fun _ => Except.ok []) reqAB).2 [(5 : Rat), 7] 0
     (by decide) (by decide)⟩

/-- Claim C9: `rerank` is deterministic — two runs against scoring
capabilities that answer identically (in particular, two runs against
one deterministic capability) produce identical responses. -/
theorem rerank_deterministic (f g : Predict) (p : RerankRequest)
    (h : ∀ pairs, f pairs = g pairs) :
    rerank f p = rerank g p := by
  unfold rerank
  rw [h]

/-- Witness for `rerank_deterministic`: two syntactically different,
extensionally equal scoring functions give the same response. -/
theorem rerank_deterministic_witness :
    rerank (fun _ => Except.ok [(1 : Rat), 2]) reqAB
      = rerank (fun _ => Except.ok [(1 : Rat), 1 + 1]) reqAB :=
  rerank_deterministic (fun _ => Except.ok [(1 : Rat), 2])
    (fun _ => Except.ok [(1 : Rat), 1 + 1]) reqAB (fun _ => by norm_num)

/-- Claim C10: the response depends only on the query and on each
document's id and text.  Two requests agreeing on those — whatever
their documents' `metadata` and upstream `score` fields — receive
identical responses from any fixed scoring function. -/
theorem rerank_ignores_metadata (f : Predict) (p₁ p₂ : RerankRequest)
    (hq : p₁.query = p₂.query)
    (hdocs : p₁.documents.map (fun d => (d.id, d.text))
      = p₂.documents.map (fun d => (d.id, d.text))) :
    rerank f p₁ = rerank f p₂ := by
  have hid : p₁.documents.map (fun d => d.id) = p₂.documents.map (fun d => d.id) := by
    have h := congrArg (List.map Prod.fst) hdocs
    simpa [List.map_map, Function.comp] using h
  have htext : p₁.documents.map (fun d => d.text) = p₂.documents.map (fun d => d.text) := by
    have h := congrArg (List.map Prod.snd) hdocs
    simpa [List.map_map, Function.comp] using h
  have hpairs : buildPairs p₁ = buildPairs p₂ := by
    unfold buildPairs
    rw [hq]
    have h := congrArg (List.map (fun t => (p₂.query, t))) htext
    simpa [List.map_map, Function.comp] using h
  unfold rerank
  rw [hpairs]
  cases f (buildPairs p₂) with
  | error e => rfl
  | ok scores =>
    dsimp only
    rw [pairResults_congr p₁.documents p₂.documents scores hid]

/-- Witness for `rerank_ignores_metadata`: the concrete request with
and without metadata and upstream-score junk gets the same response. -/
theorem rerank_ignores_metadata_witness :
    rerank (fun _ => Except.ok [(1 : Rat), 2]) reqAB
      = rerank (fun _ => Except.ok [(1 : Rat), 2]) reqABJunk :=
  rerank_ignores_metadata (fun _ => Except.ok [(1 : Rat), 2]) reqAB reqABJunk
    rfl rfl

end MeetingAssistant
